import Mathlib

/-!
Verification development for the parser-registry / input-resolution core of
`python-anyconfig` (`anyconfig/backends.py`, `anyconfig/inputs.py`,
`anyconfig/globals.py`).

The Python code is shallowly embedded as executable Lean definitions:

* Python's stable `sorted(itr, key=keyfunc)` is embedded as a stable
  insertion sort `sortedByKey`; string keys are compared through
  `String.toList`, i.e. lexicographically by code point, exactly as Python
  compares `str` values.
* `itertools.groupby` (applied, as in the source, only to lists already
  sorted by the grouping key) is embedded as `groupby`, which groups
  consecutive runs of equal keys.
* Exceptions are embedded as `Except` values of type `Err`.

Helpers from `anyconfig.utils` are not part of the sources; each such
definition is marked `Modelled from the spec:` in its doc comment.
-/

namespace AnyConfig

/-! ### Stable sorting by a key function (Python's `sorted(itr, key=...)`) -/

/-- Insert `a` into `l` in front of the first element whose key is not
smaller; later-inserted equal-key elements end up first, which together with
`sortedByKey`'s recursion makes the sort stable, like Python's `sorted`. -/
def insertByKey {α ω : Type} [LinearOrder ω] (k : α → ω) (a : α) : List α → List α
  | [] => [a]
  | b :: bs => if k a ≤ k b then a :: b :: bs else b :: insertByKey k a bs

/-- Stable sort by the key function `k`, embedding Python's `sorted`. -/
def sortedByKey {α ω : Type} [LinearOrder ω] (k : α → ω) : List α → List α
  | [] => []
  | a :: as => insertByKey k a (sortedByKey k as)

theorem insertByKey_perm {α ω : Type} [LinearOrder ω] (k : α → ω) (a : α) (l : List α) :
    List.Perm (insertByKey k a l) (a :: l) := by
  induction l with
  | nil => simp [insertByKey]
  | cons b bs ih =>
    by_cases h : k a ≤ k b
    · simp [insertByKey, h]
    · simp only [insertByKey, if_neg h]
      exact (ih.cons b).trans (List.Perm.swap a b bs)

theorem sortedByKey_perm {α ω : Type} [LinearOrder ω] (k : α → ω) (l : List α) :
    List.Perm (sortedByKey k l) l := by
  induction l with
  | nil => simp [sortedByKey]
  | cons a as ih => exact (insertByKey_perm k a _).trans (ih.cons a)

theorem sortedByKey_eq_nil_iff {α ω : Type} [LinearOrder ω] (k : α → ω) (l : List α) :
    sortedByKey k l = [] ↔ l = [] := by
  constructor
  · intro h
    have := (sortedByKey_perm k l).length_eq
    rw [h] at this
    exact List.length_eq_zero.mp this.symm
  · intro h
    subst h
    rfl

theorem sorted_insertByKey {α ω : Type} [LinearOrder ω] (k : α → ω) {a : α} {l : List α}
    (h : List.Sorted (fun x y => k x ≤ k y) l) :
    List.Sorted (fun x y => k x ≤ k y) (insertByKey k a l) := by
  induction l with
  | nil => simp [insertByKey, List.sorted_singleton]
  | cons b bs ih =>
    rcases List.sorted_cons.mp h with ⟨hb, hbs⟩
    by_cases hab : k a ≤ k b
    · simp only [insertByKey, if_pos hab]
      refine List.sorted_cons.mpr ⟨?_, h⟩
      intro x hx
      rcases List.mem_cons.mp hx with rfl | hx
      · exact hab
      · exact le_trans hab (hb x hx)
    · simp only [insertByKey, if_neg hab]
      refine List.sorted_cons.mpr ⟨?_, ih hbs⟩
      intro x hx
      rcases List.mem_cons.mp ((insertByKey_perm k a bs).mem_iff.mp hx) with rfl | hx
      · exact le_of_not_le hab
      · exact hb x hx

theorem sorted_sortedByKey {α ω : Type} [LinearOrder ω] (k : α → ω) (l : List α) :
    List.Sorted (fun x y => k x ≤ k y) (sortedByKey k l) := by
  induction l with
  | nil => simp [sortedByKey]
  | cons a as ih => exact sorted_insertByKey k ih

theorem filter_insertByKey {α ω : Type} [LinearOrder ω] [DecidableEq ω] (k : α → ω)
    (a : α) (l : List α) (v : ω) :
    (insertByKey k a l).filter (fun x => decide (k x = v)) =
      (if k a = v then [a] else []) ++ l.filter (fun x => decide (k x = v)) := by
  induction l with
  | nil => by_cases h : k a = v <;> simp [insertByKey, h]
  | cons b bs ih =>
    by_cases hab : k a ≤ k b
    · simp only [insertByKey, if_pos hab, List.filter_cons]
      by_cases h : k a = v <;> simp [h]
    · simp only [insertByKey, if_neg hab, List.filter_cons]
      rw [ih]
      by_cases h1 : k b = v
      · have h2 : ¬ k a = v := by
          intro h2
          exact hab (le_of_eq (h2.trans h1.symm))
        simp [h1, h2]
      · simp [h1]

theorem filter_sortedByKey {α ω : Type} [LinearOrder ω] [DecidableEq ω] (k : α → ω)
    (l : List α) (v : ω) :
    (sortedByKey k l).filter (fun x => decide (k x = v)) =
      l.filter (fun x => decide (k x = v)) := by
  induction l with
  | nil => rfl
  | cons a as ih =>
    simp only [sortedByKey]
    rw [filter_insertByKey, ih, List.filter_cons]
    by_cases h : k a = v <;> simp [h]

/-- In a list sorted ascending by key, every element's key is at most the key
of the last element. -/
theorem key_le_getLast {α ω : Type} [LinearOrder ω] (k : α → ω) :
    ∀ (l : List α) (h : l ≠ []), List.Sorted (fun x y => k x ≤ k y) l →
      ∀ x ∈ l, k x ≤ k (l.getLast h)
  | [], h, _, _, hx => absurd rfl h
  | [a], _, _, x, hx => by
    rcases List.mem_singleton.mp hx with rfl
    simp [List.getLast]
  | a :: b :: t, _, hs, x, hx => by
    rcases List.sorted_cons.mp hs with ⟨ha, hs'⟩
    rw [List.getLast_cons (by simp : b :: t ≠ [])]
    rcases List.mem_cons.mp hx with rfl | hx
    · exact le_trans (ha _ (List.mem_cons_self b t))
        (key_le_getLast k (b :: t) (by simp) hs' b (List.mem_cons_self b t))
    · exact key_le_getLast k (b :: t) (by simp) hs' x hx

/-! ### `itertools.groupby` on a list sorted by the grouping key -/

/-- One step of `groupby`: prepend element `a` to the run list `grps`,
extending the first run when its key equals `key a` and opening a new run
otherwise. -/
def groupPrepend {α : Type} (key : α → String) (a : α) :
    List (String × List α) → List (String × List α)
  | [] => [(key a, [a])]
  | (k0, g) :: rest =>
    if key a = k0 then (k0, a :: g) :: rest else (key a, [a]) :: (k0, g) :: rest

/-- Embedding of `itertools.groupby`: group consecutive runs of elements with equal key,
materialised as `(key, run)` pairs.  In the source it is only ever applied to
lists already sorted by the same key (see `groupby_key`). -/
def groupby {α : Type} (key : α → String) : List α → List (String × List α)
  | [] => []
  | a :: as => groupPrepend key a (groupby key as)

theorem groupby_eq_nil {α : Type} (key : α → String) {l : List α}
    (h : groupby key l = []) : l = [] := by
  cases l with
  | nil => rfl
  | cons a as =>
    simp only [groupby] at h
    rcases hg : groupby key as with _ | ⟨⟨k0, g⟩, rest⟩ <;> rw [hg] at h
    · simp [groupPrepend] at h
    · by_cases hk : key a = k0 <;> simp [groupPrepend, hk] at h

theorem mem_groupby_ne_nil {α : Type} (key : α → String) {l : List α}
    {kk : String} {g : List α} (h : (kk, g) ∈ groupby key l) : g ≠ [] := by
  induction l generalizing kk g with
  | nil => simp [groupby] at h
  | cons a as ih =>
    simp only [groupby] at h
    rcases hg : groupby key as with _ | ⟨⟨k0, g0⟩, rest⟩ <;> rw [hg] at h
    · simp only [groupPrepend, List.mem_singleton] at h
      rcases Prod.mk.injEq .. ▸ h with ⟨rfl, rfl⟩
      simp
    · by_cases hk : key a = k0
      · rw [groupPrepend, if_pos hk] at h
        rcases List.mem_cons.mp h with heq | hmem
        · rcases Prod.mk.injEq .. ▸ heq with ⟨rfl, rfl⟩
          simp
        · exact ih (hg ▸ List.mem_cons_of_mem _ hmem)
      · rw [groupPrepend, if_neg hk] at h
        rcases List.mem_cons.mp h with heq | hmem
        · rcases Prod.mk.injEq .. ▸ heq with ⟨rfl, rfl⟩
          simp
        · exact ih (hg ▸ hmem)

/-- Every key of a group is the key of some element of the input list. -/
theorem key_mem_of_mem_groupby {α : Type} (key : α → String) {l : List α}
    {kk : String} {g : List α} (h : (kk, g) ∈ groupby key l) : kk ∈ l.map key := by
  induction l generalizing kk g with
  | nil => simp [groupby] at h
  | cons a as ih =>
    simp only [groupby] at h
    rcases hg : groupby key as with _ | ⟨⟨k0, g0⟩, rest⟩ <;> rw [hg] at h
    · simp only [groupPrepend, List.mem_singleton] at h
      rcases Prod.mk.injEq .. ▸ h with ⟨rfl, rfl⟩
      simp
    · by_cases hk : key a = k0
      · rw [groupPrepend, if_pos hk] at h
        rcases List.mem_cons.mp h with heq | hmem
        · rcases Prod.mk.injEq .. ▸ heq with ⟨rfl, rfl⟩
          simp [hk]
        · exact List.mem_cons_of_mem _ (ih (hg ▸ List.mem_cons_of_mem _ hmem))
      · rw [groupPrepend, if_neg hk] at h
        rcases List.mem_cons.mp h with heq | hmem
        · rcases Prod.mk.injEq .. ▸ heq with ⟨rfl, rfl⟩
          simp
        · exact List.mem_cons_of_mem _ (ih (hg ▸ hmem))

/-- Every element's key occurs among the group keys. -/
theorem key_mem_groupby_of_mem {α : Type} (key : α → String) {l : List α}
    {x : α} (h : x ∈ l) : key x ∈ (groupby key l).map Prod.fst := by
  induction l with
  | nil => simp at h
  | cons a as ih =>
    simp only [groupby]
    rcases hg : groupby key as with _ | ⟨⟨k0, g0⟩, rest⟩
    · rcases List.mem_cons.mp h with rfl | hx
      · simp [groupPrepend]
      · have := ih hx
        rw [hg] at this
        simp at this
    · by_cases hk : key a = k0
      · rw [groupPrepend, if_pos hk]
        rcases List.mem_cons.mp h with rfl | hx
        · simp [hk]
        · have := ih hx
          rw [hg] at this
          simpa using this
      · rw [groupPrepend, if_neg hk]
        rcases List.mem_cons.mp h with rfl | hx
        · simp
        · have := ih hx
          rw [hg] at this
          simp only [List.map_cons, List.mem_cons] at this ⊢
          tauto

theorem toList_lt_ne {k1 k2 : String} (h : k1.toList < k2.toList) : k1 ≠ k2 := by
  intro he
  subst he
  exact lt_irrefl _ h

theorem key_toList_le_of_mem_map {α : Type} (key : α → String) {a : α} {as : List α}
    (ha : ∀ b ∈ as, (key a).toList ≤ (key b).toList) {kk : String}
    (h : kk ∈ as.map key) : (key a).toList ≤ kk.toList := by
  obtain ⟨b, hb, rfl⟩ := List.mem_map.mp h
  exact ha b hb

/-- On a list sorted ascending by key, the keys of the groups produced by
`groupby` are strictly increasing. -/
theorem groupby_keys_sorted {α : Type} (key : α → String) {l : List α}
    (hs : List.Sorted (fun x y => (key x).toList ≤ (key y).toList) l) :
    List.Pairwise (fun k1 k2 : String => k1.toList < k2.toList)
      ((groupby key l).map Prod.fst) := by
  induction l with
  | nil => simp [groupby]
  | cons a as ih =>
    rcases List.sorted_cons.mp hs with ⟨ha, hs'⟩
    have ihs := ih hs'
    simp only [groupby]
    rcases hg : groupby key as with _ | ⟨⟨k0, g0⟩, rest⟩
    · simp [groupPrepend]
    · rw [hg] at ihs
      by_cases hk : key a = k0
      · rw [groupPrepend, if_pos hk]
        exact ihs
      · rw [groupPrepend, if_neg hk]
        have hk0mem : k0 ∈ as.map key :=
          key_mem_of_mem_groupby key (hg ▸ List.mem_cons_self _ _)
        have hak0 : (key a).toList < k0.toList :=
          lt_of_le_of_ne (key_toList_le_of_mem_map key ha hk0mem)
            (fun he => hk (String.toList_inj.mp he))
        simp only [List.map_cons]
        refine List.pairwise_cons.mpr ⟨?_, ihs⟩
        intro y hy
        rcases List.mem_cons.mp hy with rfl | hy
        · exact hak0
        · exact lt_trans hak0 ((List.pairwise_cons.mp ihs).1 y hy)

/-- On a list sorted ascending by key, each `groupby` group contains exactly
the input elements having that key, in input order. -/
theorem mem_groupby_eq_filter {α : Type} (key : α → String) {l : List α}
    (hs : List.Sorted (fun x y => (key x).toList ≤ (key y).toList) l)
    {kk : String} {g : List α} (h : (kk, g) ∈ groupby key l) :
    g = l.filter (fun x => decide (key x = kk)) := by
  induction l generalizing kk g with
  | nil => simp [groupby] at h
  | cons a as ih =>
    rcases List.sorted_cons.mp hs with ⟨ha, hs'⟩
    have hkeys := groupby_keys_sorted key hs'
    simp only [groupby] at h
    rcases hg : groupby key as with _ | ⟨⟨k0, g0⟩, rest⟩ <;> rw [hg] at h
    · have has : as = [] := groupby_eq_nil key hg
      subst has
      simp only [groupPrepend, List.mem_singleton] at h
      rcases Prod.mk.injEq .. ▸ h with ⟨rfl, rfl⟩
      simp [List.filter_cons]
    · rw [hg] at hkeys
      simp only [List.map_cons] at hkeys
      have hk0mem : k0 ∈ as.map key :=
        key_mem_of_mem_groupby key (hg ▸ List.mem_cons_self _ _)
      by_cases hk : key a = k0
      · rw [groupPrepend, if_pos hk] at h
        rcases List.mem_cons.mp h with heq | hmem
        · rcases Prod.mk.injEq .. ▸ heq with ⟨rfl, rfl⟩
          have hg0 : g0 = as.filter (fun x => decide (key x = kk)) :=
            ih hs' (hg ▸ List.mem_cons_self _ _)
          rw [List.filter_cons, if_pos (by simp [hk]), hg0]
        · have hgg : g = as.filter (fun x => decide (key x = kk)) :=
            ih hs' (hg ▸ List.mem_cons_of_mem _ hmem)
          have hkkmem : kk ∈ rest.map Prod.fst := List.mem_map_of_mem _ hmem
          have hlt : k0.toList < kk.toList :=
            (List.pairwise_cons.mp hkeys).1 kk hkkmem
          have hne : key a ≠ kk := fun he => toList_lt_ne hlt (hk.symm.trans he)
          rw [List.filter_cons, if_neg (by simp [hne]), hgg]
      · rw [groupPrepend, if_neg hk] at h
        have hak0 : (key a).toList ≤ k0.toList :=
          key_toList_le_of_mem_map key ha hk0mem
        rcases List.mem_cons.mp h with heq | hmem
        · rcases Prod.mk.injEq .. ▸ heq with ⟨rfl, rfl⟩
          have hnil : as.filter (fun x => decide (key x = key a)) = [] := by
            rw [List.filter_eq_nil_iff]
            intro x hx hxa
            have hxa' : key x = key a := of_decide_eq_true hxa
            have hmem' : key x ∈ (groupby key as).map Prod.fst :=
              key_mem_groupby_of_mem key hx
            rw [hg] at hmem'
            simp only [List.map_cons, List.mem_cons] at hmem'
            rcases hmem' with he | hmem'
            · exact hk (hxa' ▸ he)
            · have : k0.toList < (key x).toList :=
                (List.pairwise_cons.mp hkeys).1 _ hmem'
              rw [hxa'] at this
              exact absurd (lt_of_le_of_lt hak0 this) (lt_irrefl _)
          rw [List.filter_cons, if_pos (by simp), hnil]
        · have hgg : g = as.filter (fun x => decide (key x = kk)) := ih hs' (hg ▸ hmem)
          have hne : key a ≠ kk := by
            intro he
            rcases List.mem_cons.mp hmem with heq2 | hmem2
            · rcases Prod.mk.injEq .. ▸ heq2 with ⟨rfl, rfl⟩
              exact hk he
            · have hkkmem : kk ∈ rest.map Prod.fst := List.mem_map_of_mem _ hmem2
              have hlt : k0.toList < kk.toList :=
                (List.pairwise_cons.mp hkeys).1 kk hkkmem
              rw [← he] at hlt
              exact absurd (lt_of_le_of_lt hak0 hlt) (lt_irrefl _)
          rw [List.filter_cons, if_neg (by simp [hne]), hgg]

/-- On a sorted input the group keys contain no duplicates. -/
theorem groupby_keys_nodup {α : Type} (key : α → String) {l : List α}
    (hs : List.Sorted (fun x y => (key x).toList ≤ (key y).toList) l) :
    ((groupby key l).map Prod.fst).Nodup :=
  (groupby_keys_sorted key hs).imp toList_lt_ne

/-- Embedding of `next((... for k, v in l if k == target), None)`: when the keys of an
association list are duplicate-free, the first (hence only) pair with a given
key is any pair known to be a member. -/
theorem find?_eq_of_mem_of_nodup {β : Type} {l : List (String × β)}
    (hnd : (l.map Prod.fst).Nodup) {kk : String} {b : β} (hm : (kk, b) ∈ l) :
    l.find? (fun pr => decide (pr.1 = kk)) = some (kk, b) := by
  induction l with
  | nil => simp at hm
  | cons p t ih =>
    obtain ⟨k0, b0⟩ := p
    simp only [List.map_cons, List.nodup_cons] at hnd
    by_cases hk : k0 = kk
    · subst hk
      rw [List.find?_cons_of_pos _ (by simp)]
      rcases List.mem_cons.mp hm with heq | hmem
      · rcases Prod.mk.injEq .. ▸ heq with ⟨-, rfl⟩
        rfl
      · exact absurd (List.mem_map_of_mem Prod.fst hmem) hnd.1
    · rw [List.find?_cons_of_neg _ (by simp [hk])]
      rcases List.mem_cons.mp hm with heq | hmem
      · rcases Prod.mk.injEq .. ▸ heq with ⟨rfl, rfl⟩
        exact absurd rfl hk
      · exact ih hnd.2 hmem

deriving instance DecidableEq for Except

/-! ### Data model (`anyconfig/globals.py` and the parser-descriptor contract) -/

/-- A parser class (backend descriptor).  In the source a parser class exposes
the class methods `type()`, `extensions()` and `priority()`; distinct classes
may share all three, so `id` stands for the class identity. -/
structure ParserCls where
  type : String
  extensions : List String
  priority : Nat
  id : Nat
  deriving DecidableEq

/-- An instance of a parser class, the result of calling the class
(`parser()` in the source). -/
structure ParserInstance where
  cls : ParserCls
  deriving DecidableEq

/-- Calling a parser class to obtain an instance. -/
def instantiate (cls : ParserCls) : ParserInstance := ⟨cls⟩

/-- The exceptions raised by this core: `ValueError`,
`UnknownParserTypeError(forced_type)` and `UnknownFileTypeError(path)`
(`anyconfig/globals.py`). -/
inductive Err where
  | valueError (msg : String)
  | unknownParserType (forced_type : String)
  | unknownFileType (path : String)
  deriving DecidableEq

/-- The `forced_type` argument of `findParser` / `make`: Python `None`, an
already-constructed parser instance, or a type token string. -/
inductive Forced where
  | none
  | inst (p : ParserInstance)
  | typ (t : String)
  deriving DecidableEq

/-! ### `anyconfig/backends.py` -/

/-- Embedding of `backends.fst`. -/
def fst {γ β : Type} (tpl : γ × β) : γ := tpl.1

/-- Embedding of `backends.snd`. -/
def snd {γ β : Type} (tpl : γ × β) : β := tpl.2

/-- Embedding of `backends.groupby_key`: sort `itr` by `keyfunc` (stable, Python string
comparison is lexicographic by code point, embedded through
`String.toList`), then group consecutive equal keys with `itertools.groupby`. -/
def groupby_key {α : Type} (itr : List α) (keyfunc : α → String) :
    List (String × List α) :=
  groupby keyfunc (sortedByKey (fun x => (keyfunc x).toList) itr)

/-- Embedding of `backends._list_parsers_by_type`: group parser classes by `type()` and
sort each group ascending by `priority()` (stable). -/
def _list_parsers_by_type (cps : List ParserCls) : List (String × List ParserCls) :=
  (groupby_key cps (fun p => p.type)).map
    (fun pr => (pr.1, sortedByKey (fun p => p.priority) pr.2))

/-- Embedding of `backends._list_xppairs`: drop the extension component of each pair and
sort the parser classes ascending by `priority()` (stable). -/
def _list_xppairs (xps : List (String × ParserCls)) : List ParserCls :=
  sortedByKey (fun p => p.priority) (xps.map snd)

/-- The flattened `(extension, parser_class)` pair list built inside
`backends._list_parsers_by_extension`:
`concat(([(x, p) for x in p.extensions()] for p in cps))`. -/
def cps_by_ext_pairs (cps : List ParserCls) : List (String × ParserCls) :=
  cps.flatMap (fun p => p.extensions.map (fun x => (x, p)))

/-- Embedding of `backends._list_parsers_by_extension`: flatten every class's declared
extensions, group by extension and sort each group ascending by priority. -/
def _list_parsers_by_extension (cps : List ParserCls) : List (String × List ParserCls) :=
  (groupby_key (cps_by_ext_pairs cps) fst).map
    (fun pr => (pr.1, _list_xppairs pr.2))

/-- Embedding of `backends.list_types`: `sorted(set(next(izip(*cps))))` over a built
by-type index, i.e. the sorted, deduplicated list of its group keys.  (The
source's `cps is None` re-build branch never fires for a supplied index.) -/
def list_types (cps : List (String × List ParserCls)) : List String :=
  sortedByKey String.toList (cps.map fst).dedup

/-! ### `anyconfig/inputs.py` -/

/-- The members of `ITYPES = (NONE, PATH_STR, PATH_OBJ, STREAM)`; `NONE` is
the Python value `None`. -/
inductive IType where
  | none
  | pathStr
  | pathObj
  | stream
  deriving DecidableEq

/-- The opener capability stored in an input descriptor: the builtin `open`,
a path object's own `.open` method, or `anyconfig.utils.noop`. -/
inductive Opener where
  | fileOpen
  | objOpen
  | noop
  deriving DecidableEq

/-- An arbitrary Python object passed as input.  `pathStr` is a text path
(`anyconfig.utils.is_path` is true exactly for strings), `pathObj` a
`pathlib.Path`-like object carrying its POSIX string form, `stream` an open
file-like object carrying the optional `name` attribute, and `other` any
object of none of these shapes, carrying its `repr` and its Python
truthiness. -/
inductive IOObj where
  | none
  | pathStr (s : String)
  | pathObj (s : String)
  | stream (name : Option String)
  | other (r : String) (falsy : Bool)
  deriving DecidableEq

/-- Python truthiness test `not obj` (negated): `None` and the empty string
are falsy; path objects and streams are truthy; an arbitrary object carries
its own truthiness. -/
def is_falsy : IOObj → Bool
  | IOObj.none => true
  | IOObj.pathStr s => decide (s = "")
  | IOObj.pathObj _ => false
  | IOObj.stream _ => false
  | IOObj.other _ falsy => falsy

/-- Modelled from the spec: `anyconfig.utils.normpath` is not among the
sources; per the spec the classifier derives "the normalized form of the
text (platform-independent separator normalization, no existence check)":
every backslash separator is replaced by a slash. -/
def normpath (s : String) : String :=
  String.mk (s.toList.map (fun c => if c = '\\' then '/' else c))

/-- Modelled from the spec: `anyconfig.utils.get_path_from_stream` is not
among the sources; per the spec the path is "best-effort recovered ... from
the stream's name attribute if present else absent", and nothing but the
name attribute is consulted, so an object without one yields `none`. -/
def get_path_from_stream : IOObj → Option String
  | IOObj.stream name => name
  | _ => Option.none

/-- The suffix of `cs` after the last occurrence of `sep` (all of `cs` when
`sep` does not occur). -/
def afterLast (sep : Char) (cs : List Char) : List Char :=
  cs.foldl (fun acc c => if c = sep then [] else acc ++ [c]) []

/-- Modelled from the spec: `anyconfig.utils.get_file_extension` is not among
the sources; per the spec the extension is "the text after the last
path-separator-relative dot (text after the last path-separator-relative
dot; no extension -> empty string)". -/
def get_file_extension (file_path : String) : String :=
  let base := afterLast '/' file_path.toList
  if '.' ∈ base then String.mk (afterLast '.' base) else ""

/-- Embedding of `inputs.guess_io_type`: `None`, then `is_path`, then `is_path_obj`, and
everything else falls through to `STREAM`. -/
def guess_io_type : IOObj → IType
  | IOObj.none => IType.none
  | IOObj.pathStr _ => IType.pathStr
  | IOObj.pathObj _ => IType.pathObj
  | IOObj.stream _ => IType.stream
  | IOObj.other _ _ => IType.stream

/-- Embedding of `inputs.inspect_io_obj`.  The source branches on
`itype = guess_io_type(obj)`; since `guess_io_type` always returns one of the
four members of `ITYPES`, the source's trailing
`raise UnknownFileTypeError("%r" % obj)` branch is unreachable, and objects
that are neither `None`, a path string nor a path object (i.e. both `stream`
and `other`) take the `STREAM` branch. -/
def inspect_io_obj (obj : IOObj) : Except Err (IType × Option String × Opener) :=
  match obj with
  | IOObj.none => Except.ok (IType.none, Option.none, Opener.noop)
  | IOObj.pathStr s => Except.ok (IType.pathStr, some (normpath s), Opener.fileOpen)
  | IOObj.pathObj s => Except.ok (IType.pathObj, some (normpath s), Opener.objOpen)
  | IOObj.stream name =>
    Except.ok (IType.stream, get_path_from_stream (IOObj.stream name), Opener.noop)
  | IOObj.other r falsy =>
    Except.ok (IType.stream, get_path_from_stream (IOObj.other r falsy), Opener.noop)

/-- Embedding of `inputs.find_by_fileext`:
`next((psrs[-1] for ext, psrs in cps_by_ext if ext == fileext), None)`.
(`psrs[-1]` is embedded as `getLast?`; the index builder never produces an
empty group.) -/
def find_by_fileext (fileext : String)
    (cps_by_ext : List (String × List ParserCls)) : Option ParserCls :=
  match cps_by_ext.find? (fun pr => decide (pr.1 = fileext)) with
  | some pr => pr.2.getLast?
  | Option.none => Option.none

/-- Embedding of `inputs.find_by_filepath`: derive the extension and delegate. -/
def find_by_filepath (filepath : String)
    (cps_by_ext : List (String × List ParserCls)) : Option ParserCls :=
  find_by_fileext (get_file_extension filepath) cps_by_ext

/-- Embedding of `inputs.find_by_type`:
`next((psrs[-1] or None for t, psrs in cps_by_type if t == cptype), None)`.
(A class is always truthy, so `or None` is the identity; `psrs[-1]` is
embedded as `getLast?`.) -/
def find_by_type (cptype : String)
    (cps_by_type : List (String × List ParserCls)) : Option ParserCls :=
  match cps_by_type.find? (fun pr => decide (pr.1 = cptype)) with
  | some pr => pr.2.getLast?
  | Option.none => Option.none

/-- Embedding of `inputs.findParser`. -/
def findParser (ipath : Option String)
    (cps_by_ext cps_by_type : List (String × List ParserCls))
    (forced_type : Forced) : Except Err ParserInstance :=
  if (ipath = Option.none ∨ ipath = some "") ∧ forced_type = Forced.none then
    Except.error (Err.valueError "ipath or forced_type must be some value")
  else
    match forced_type with
    | Forced.inst p => Except.ok p
    | Forced.none =>
      match find_by_filepath (ipath.getD "") cps_by_ext with
      | some parser => Except.ok (instantiate parser)
      | Option.none => Except.error (Err.unknownFileType (ipath.getD ""))
    | Forced.typ t =>
      match find_by_type t cps_by_type with
      | some parser => Except.ok (instantiate parser)
      | Option.none => Except.error (Err.unknownParserType t)

/-- The `Input` namedtuple of `anyconfig/globals.py`:
`src type path parser opener`. -/
structure Input where
  src : IOObj
  type : IType
  path : Option String
  parser : ParserInstance
  opener : Opener
  deriving DecidableEq

/-- The argument of `inputs.make`: either an already-built `Input` value or a
raw input object.  `anyconfig.utils.is_io_obj` is not among the sources;
modelled from the spec, it recognises exactly the already-built Input
Descriptors, which this sum type makes explicit. -/
inductive MakeArg where
  | input (i : Input)
  | obj (o : IOObj)
  deriving DecidableEq

/-- Embedding of `inputs.make`. -/
def make (arg : MakeArg) (cps_by_ext cps_by_type : List (String × List ParserCls))
    (forced_type : Forced) : Except Err Input :=
  match arg with
  | MakeArg.input i => Except.ok i
  | MakeArg.obj o =>
    if is_falsy o = true ∧ forced_type = Forced.none then
      Except.error (Err.valueError "obj or forced_type must be some value")
    else
      match inspect_io_obj o with
      | Except.error e => Except.error e
      | Except.ok (itype, ipath, opener) =>
        match findParser ipath cps_by_ext cps_by_type forced_type with
        | Except.error e => Except.error e
        | Except.ok psr => Except.ok ⟨o, itype, ipath, psr, opener⟩

/-- Embedding of `backends.findParserByType`.  The body delegates to
`anyconfig.ioinfo.findParser`, which is not among the sources; it has the
same signature and contract as `inputs.findParser` (the spec's Parser
Resolver), so the call is embedded as `findParser`. -/
def findParserByType (forced_type : Option String)
    (cps_by_ext cps_by_type : List (String × List ParserCls)) :
    Except Err ParserInstance :=
  if forced_type = Option.none ∨ forced_type = some "" then
    Except.error (Err.valueError "forced_type must be a some string")
  else
    findParser Option.none cps_by_ext cps_by_type (Forced.typ (forced_type.getD ""))

/-! ### Unfolding helpers for `findParser` -/

theorem findParser_guard (cps_by_ext cps_by_type : List (String × List ParserCls))
    {ipath : Option String} (hp : ipath = Option.none ∨ ipath = some "") :
    findParser ipath cps_by_ext cps_by_type Forced.none =
      Except.error (Err.valueError "ipath or forced_type must be some value") := by
  unfold findParser
  rw [if_pos (And.intro hp rfl)]

theorem findParser_typ (ipath : Option String)
    (cps_by_ext cps_by_type : List (String × List ParserCls)) (t : String) :
    findParser ipath cps_by_ext cps_by_type (Forced.typ t) =
      match find_by_type t cps_by_type with
      | some parser => Except.ok (instantiate parser)
      | Option.none => Except.error (Err.unknownParserType t) := by
  simp only [findParser]
  rw [if_neg (fun h => Forced.noConfusion h.2)]

theorem findParser_none_path (cps_by_ext cps_by_type : List (String × List ParserCls))
    {s : String} (hs : s ≠ "") :
    findParser (some s) cps_by_ext cps_by_type Forced.none =
      match find_by_filepath s cps_by_ext with
      | some parser => Except.ok (instantiate parser)
      | Option.none => Except.error (Err.unknownFileType s) := by
  unfold findParser
  rw [if_neg (fun hc => hc.1.elim (fun h1 => Option.noConfusion h1)
    (fun h1 => hs (Option.some.inj h1)))]
  rfl

/-! ### The claims -/

/-- C5: for every registry, resolving with `ipath` absent (or empty) and
`forced_type` absent raises `ValueError` (the invalid-argument error), never
a lookup error. -/
theorem C5_absent_both_raises_value_error
    (cps_by_ext cps_by_type : List (String × List ParserCls))
    (ipath : Option String) (hp : ipath = Option.none ∨ ipath = some "") :
    findParser ipath cps_by_ext cps_by_type Forced.none =
      Except.error (Err.valueError "ipath or forced_type must be some value") :=
  findParser_guard cps_by_ext cps_by_type hp

theorem C5_witness :
    findParser Option.none [] [] Forced.none =
      Except.error (Err.valueError "ipath or forced_type must be some value") :=
  C5_absent_both_raises_value_error [] [] Option.none (Or.inl rfl)

/-- C10: `make` treats any falsy input object (Python `None`, the empty path
string, or any object whose truthiness is false) with `forced_type` absent as
an invalid argument and raises `ValueError` instead of classifying it. -/
theorem C10_make_falsy_raises_value_error (o : IOObj)
    (cps_by_ext cps_by_type : List (String × List ParserCls))
    (h : is_falsy o = true) :
    make (MakeArg.obj o) cps_by_ext cps_by_type Forced.none =
      Except.error (Err.valueError "obj or forced_type must be some value") := by
  simp [make, h]

theorem C10_witness :
    make (MakeArg.obj IOObj.none) [] [] Forced.none =
      Except.error (Err.valueError "obj or forced_type must be some value") ∧
    make (MakeArg.obj (IOObj.pathStr "")) [] [] Forced.none =
      Except.error (Err.valueError "obj or forced_type must be some value") :=
  ⟨C10_make_falsy_raises_value_error IOObj.none [] [] (by decide),
   C10_make_falsy_raises_value_error (IOObj.pathStr "") [] [] (by decide)⟩

/-- C3 counterexample: an object that is neither absent, a path string, a
path object nor a stream is nevertheless classified (as a stream) instead of
failing with a file-type error. -/
theorem C3_counterexample :
    inspect_io_obj (IOObj.other "<object object at 0x7f9>" false) =
      Except.ok (IType.stream, Option.none, Opener.noop) := rfl

/-- C3 amended: an input object that is neither absent, a path string, a
path-like object nor a stream is classified as a stream (kind `STREAM`, path
recovered from a name attribute when present, here absent, opener no-op);
`guess_io_type` only ever returns one of the four kinds, so the classifier's
file-type-error branch is unreachable and classification never fails for such
objects. -/
theorem C3_other_objects_classified_as_stream (r : String) (falsy : Bool) :
    guess_io_type (IOObj.other r falsy) = IType.stream ∧
    inspect_io_obj (IOObj.other r falsy) =
      Except.ok (IType.stream, Option.none, Opener.noop) :=
  ⟨rfl, rfl⟩

/-- C4: `make` is idempotent: when `make` succeeds, feeding its result (an
already-built Input Descriptor) back into `make` with the same arguments
returns it unchanged, without re-classifying or re-resolving. -/
theorem C4_make_idempotent (arg : MakeArg)
    (cps_by_ext cps_by_type : List (String × List ParserCls))
    (forced_type : Forced) (i : Input)
    (h : make arg cps_by_ext cps_by_type forced_type = Except.ok i) :
    make (MakeArg.input i) cps_by_ext cps_by_type forced_type =
      make arg cps_by_ext cps_by_type forced_type := by
  rw [h]
  rfl

theorem C4_witness :
    make
      (MakeArg.input
        ⟨IOObj.pathStr "a.json", IType.pathStr, some "a.json",
         instantiate ⟨"json", ["json"], 20, 1⟩, Opener.fileOpen⟩)
      (_list_parsers_by_extension [⟨"json", ["json"], 20, 1⟩]) [] Forced.none =
    make (MakeArg.obj (IOObj.pathStr "a.json"))
      (_list_parsers_by_extension [⟨"json", ["json"], 20, 1⟩]) [] Forced.none :=
  C4_make_idempotent (MakeArg.obj (IOObj.pathStr "a.json"))
    (_list_parsers_by_extension [⟨"json", ["json"], 20, 1⟩]) [] Forced.none
    ⟨IOObj.pathStr "a.json", IType.pathStr, some "a.json",
     instantiate ⟨"json", ["json"], 20, 1⟩, Opener.fileOpen⟩ (by decide)

/-- C6 counterexample: with path absent and the empty string as forced type,
`inputs.findParser` does not raise the invalid-argument `ValueError`; it
treats the empty token as a present type and fails with
`UnknownParserTypeError` (a lookup failure). -/
theorem C6_counterexample :
    findParser Option.none [] [] (Forced.typ "") =
      Except.error (Err.unknownParserType "") ∧
    findParser Option.none [] [] (Forced.typ "") ≠
      Except.error (Err.valueError "ipath or forced_type must be some value") :=
  ⟨by decide, by decide⟩

/-- C6 amended: `inputs.findParser` only checks `forced_type is None`, so
with path absent or empty and an empty (non-absent) forced type token it
performs a type lookup and fails with `UnknownParserTypeError` (when no
parser of type `""` is registered) rather than with the invalid-argument
condition; the invalid-argument rejection of an empty forced type happens
only in `backends.findParserByType`, which raises `ValueError` for an
absent or empty forced type regardless of the registry. -/
theorem C6_empty_forced_type_is_lookup_error
    (cps_by_ext cps_by_type : List (String × List ParserCls))
    (ipath : Option String) (hp : ipath = Option.none ∨ ipath = some "")
    (ht : ∀ pr ∈ cps_by_type, pr.1 ≠ "") :
    findParser ipath cps_by_ext cps_by_type (Forced.typ "") =
      Except.error (Err.unknownParserType "") ∧
    findParserByType (some "") cps_by_ext cps_by_type =
      Except.error (Err.valueError "forced_type must be a some string") := by
  constructor
  · rw [findParser_typ]
    have hnone : find_by_type "" cps_by_type = Option.none := by
      have : cps_by_type.find? (fun pr => decide (pr.1 = "")) = Option.none := by
        rw [List.find?_eq_none]
        intro x hx
        simpa using ht x hx
      simp only [find_by_type, this]
    rw [hnone]
  · simp [findParserByType]

theorem C6_witness :
    findParser Option.none [] [("json", [⟨"json", ["json"], 10, 0⟩])] (Forced.typ "") =
      Except.error (Err.unknownParserType "") ∧
    findParserByType (some "") [] [("json", [⟨"json", ["json"], 10, 0⟩])] =
      Except.error (Err.valueError "forced_type must be a some string") :=
  C6_empty_forced_type_is_lookup_error [] [("json", [⟨"json", ["json"], 10, 0⟩])]
    Option.none (Or.inl rfl) (by decide)

/-- Unfolding equation of `make` on a raw (non-descriptor) object. -/
theorem make_obj_eq (o : IOObj) (cps_by_ext cps_by_type : List (String × List ParserCls))
    (forced_type : Forced) :
    make (MakeArg.obj o) cps_by_ext cps_by_type forced_type =
      (if is_falsy o = true ∧ forced_type = Forced.none then
        Except.error (Err.valueError "obj or forced_type must be some value")
      else
        match inspect_io_obj o with
        | Except.error e => Except.error e
        | Except.ok (itype, ipath, opener) =>
          match findParser ipath cps_by_ext cps_by_type forced_type with
          | Except.error e => Except.error e
          | Except.ok psr => Except.ok ⟨o, itype, ipath, psr, opener⟩) := rfl

/-- C9: whenever `make` succeeds on a raw object, the returned descriptor's
`src` field is the original object itself, and its `type`, `path` (and
`opener`) fields are exactly the classification produced by
`inspect_io_obj`. -/
theorem C9_make_fields_from_classification (o : IOObj)
    (cps_by_ext cps_by_type : List (String × List ParserCls)) (forced_type : Forced)
    (i : Input)
    (h : make (MakeArg.obj o) cps_by_ext cps_by_type forced_type = Except.ok i) :
    i.src = o ∧ inspect_io_obj o = Except.ok (i.type, i.path, i.opener) := by
  rw [make_obj_eq] at h
  by_cases hg : is_falsy o = true ∧ forced_type = Forced.none
  · rw [if_pos hg] at h
    exact Except.noConfusion h
  · rw [if_neg hg] at h
    split at h
    · exact Except.noConfusion h
    · split at h
      · exact Except.noConfusion h
      · have hi := Except.ok.inj h
        subst hi
        exact ⟨rfl, by assumption⟩

theorem C9_witness :
    Input.src
        ⟨IOObj.pathStr "b.json", IType.pathStr, some "b.json",
         instantiate ⟨"json", ["json"], 10, 0⟩, Opener.fileOpen⟩ =
      IOObj.pathStr "b.json" ∧
    inspect_io_obj (IOObj.pathStr "b.json") =
      Except.ok
        (Input.type
          ⟨IOObj.pathStr "b.json", IType.pathStr, some "b.json",
           instantiate ⟨"json", ["json"], 10, 0⟩, Opener.fileOpen⟩,
         Input.path
          ⟨IOObj.pathStr "b.json", IType.pathStr, some "b.json",
           instantiate ⟨"json", ["json"], 10, 0⟩, Opener.fileOpen⟩,
         Input.opener
          ⟨IOObj.pathStr "b.json", IType.pathStr, some "b.json",
           instantiate ⟨"json", ["json"], 10, 0⟩, Opener.fileOpen⟩) :=
  C9_make_fields_from_classification (IOObj.pathStr "b.json")
    (_list_parsers_by_extension [⟨"json", ["json"], 10, 0⟩]) [] Forced.none
    ⟨IOObj.pathStr "b.json", IType.pathStr, some "b.json",
     instantiate ⟨"json", ["json"], 10, 0⟩, Opener.fileOpen⟩ (by decide)

/-- C8: for every non-empty parser collection, `list_types` over the by-type
index is sorted (Python string order, i.e. `String` order) and contains no
duplicate type names, even when several descriptors share a type. -/
theorem C8_list_types_sorted_nodup (parsers : List ParserCls) (hne : parsers ≠ []) :
    List.Sorted (fun a b : String => a ≤ b)
      (list_types (_list_parsers_by_type parsers)) ∧
    (list_types (_list_parsers_by_type parsers)).Nodup := by
  constructor
  · exact (sorted_sortedByKey String.toList
      ((_list_parsers_by_type parsers).map fst).dedup).imp
      (fun h => String.le_iff_toList_le.mpr h)
  · exact ((sortedByKey_perm String.toList
      ((_list_parsers_by_type parsers).map fst).dedup).symm).nodup
      (List.nodup_dedup _)

theorem C8_witness :
    List.Sorted (fun a b : String => a ≤ b)
      (list_types (_list_parsers_by_type
        [⟨"json", ["json"], 10, 0⟩, ⟨"json", ["json"], 20, 1⟩, ⟨"ini", ["ini"], 0, 2⟩])) ∧
    (list_types (_list_parsers_by_type
      [⟨"json", ["json"], 10, 0⟩, ⟨"json", ["json"], 20, 1⟩,
       ⟨"ini", ["ini"], 0, 2⟩])).Nodup :=
  C8_list_types_sorted_nodup
    [⟨"json", ["json"], 10, 0⟩, ⟨"json", ["json"], 20, 1⟩, ⟨"ini", ["ini"], 0, 2⟩]
    (by decide)

/-! ### Structure of the built indices -/

theorem map_fst_map_pair {β γ : Type} (l : List (String × β)) (f : β → γ) :
    ((l.map (fun pr => (pr.1, f pr.2))).map Prod.fst) = l.map Prod.fst := by
  induction l with
  | nil => rfl
  | cons a t ih => simp [ih]

theorem groupby_key_keys_nodup {α : Type} (itr : List α) (keyfunc : α → String) :
    ((groupby_key itr keyfunc).map Prod.fst).Nodup :=
  groupby_keys_nodup keyfunc (sorted_sortedByKey (fun x => (keyfunc x).toList) itr)

theorem keys_by_type_nodup (parsers : List ParserCls) :
    ((_list_parsers_by_type parsers).map Prod.fst).Nodup := by
  unfold _list_parsers_by_type
  rw [map_fst_map_pair]
  exact groupby_key_keys_nodup parsers (fun p => p.type)

theorem keys_by_ext_nodup (parsers : List ParserCls) :
    ((_list_parsers_by_extension parsers).map Prod.fst).Nodup := by
  unfold _list_parsers_by_extension
  rw [map_fst_map_pair]
  exact groupby_key_keys_nodup (cps_by_ext_pairs parsers) fst

theorem mem_list_parsers_by_type {parsers : List ParserCls} {t : String}
    {ps : List ParserCls} (hmem : (t, ps) ∈ _list_parsers_by_type parsers) :
    ∃ g : List ParserCls, (t, g) ∈ groupby_key parsers (fun p => p.type) ∧
      ps = sortedByKey (fun p => p.priority) g := by
  obtain ⟨pr, hpr, heq⟩ := List.mem_map.mp hmem
  obtain ⟨t0, g⟩ := pr
  obtain ⟨h1, h2⟩ := Prod.mk.injEq .. ▸ heq
  exact ⟨g, h1 ▸ hpr, h2.symm⟩

theorem mem_list_parsers_by_extension {parsers : List ParserCls} {x : String}
    {ps : List ParserCls} (hmem : (x, ps) ∈ _list_parsers_by_extension parsers) :
    ∃ g : List (String × ParserCls),
      (x, g) ∈ groupby_key (cps_by_ext_pairs parsers) fst ∧ ps = _list_xppairs g := by
  obtain ⟨pr, hpr, heq⟩ := List.mem_map.mp hmem
  obtain ⟨x0, g⟩ := pr
  obtain ⟨h1, h2⟩ := Prod.mk.injEq .. ▸ heq
  exact ⟨g, h1 ▸ hpr, h2.symm⟩

theorem groupby_key_group_ne_nil {α : Type} {itr : List α} {keyfunc : α → String}
    {t : String} {g : List α} (h : (t, g) ∈ groupby_key itr keyfunc) : g ≠ [] :=
  mem_groupby_ne_nil keyfunc h

theorem filter_sortedByKey_str {α : Type} (key : α → String) (l : List α) (t : String) :
    (sortedByKey (fun x => (key x).toList) l).filter (fun x => decide (key x = t)) =
      l.filter (fun x => decide (key x = t)) := by
  have hcong : ∀ m : List α,
      m.filter (fun x => decide (key x = t)) =
        m.filter (fun x => decide ((key x).toList = t.toList)) := by
    intro m
    apply List.filter_congr
    intro x hx
    rw [decide_eq_decide]
    exact String.toList_inj.symm
  rw [hcong, hcong]
  exact filter_sortedByKey (fun x => (key x).toList) l t.toList

/-- A `groupby_key` group holds exactly the input elements with that key, in
original input order (the sort is stable and grouping keeps run order). -/
theorem groupby_key_group_eq_filter {α : Type} (itr : List α) (keyfunc : α → String)
    {t : String} {g : List α} (h : (t, g) ∈ groupby_key itr keyfunc) :
    g = itr.filter (fun x => decide (keyfunc x = t)) := by
  have h1 : g = (sortedByKey (fun x => (keyfunc x).toList) itr).filter
      (fun x => decide (keyfunc x = t)) :=
    mem_groupby_eq_filter keyfunc (sorted_sortedByKey _ itr) h
  rw [h1, filter_sortedByKey_str]

/-- C1: for every type key present in the by-type index (whose group is
sorted ascending by priority), resolving with that forced type returns an
instance of the group's last entry, whose priority is maximal in the
group. -/
theorem C1_forced_type_selects_last (parsers : List ParserCls) (t : String)
    (ps : List ParserCls) (hmem : (t, ps) ∈ _list_parsers_by_type parsers)
    (ipath : Option String) (cps_by_ext : List (String × List ParserCls)) :
    ∃ p : ParserCls, ps.getLast? = some p ∧
      findParser ipath cps_by_ext (_list_parsers_by_type parsers) (Forced.typ t) =
        Except.ok (instantiate p) ∧
      ∀ q ∈ ps, q.priority ≤ p.priority := by
  obtain ⟨g, hg, hps⟩ := mem_list_parsers_by_type hmem
  have hgne : g ≠ [] := groupby_key_group_ne_nil hg
  have hpsne : ps ≠ [] := by
    rw [hps]
    intro hnil
    exact hgne ((sortedByKey_eq_nil_iff _ g).mp hnil)
  refine ⟨ps.getLast hpsne, List.getLast?_eq_getLast ps hpsne, ?_, ?_⟩
  · rw [findParser_typ]
    have hfind : (_list_parsers_by_type parsers).find? (fun pr => decide (pr.1 = t)) =
        some (t, ps) := find?_eq_of_mem_of_nodup (keys_by_type_nodup parsers) hmem
    simp only [find_by_type, hfind]
    rw [List.getLast?_eq_getLast ps hpsne]
  · intro q hq
    have hsorted : List.Sorted (fun a b : ParserCls => a.priority ≤ b.priority) ps := by
      rw [hps]
      exact sorted_sortedByKey _ g
    exact key_le_getLast (fun p => p.priority) ps hpsne hsorted q hq

theorem C1_witness :
    ∃ p : ParserCls,
      [(⟨"json", ["json"], 10, 0⟩ : ParserCls), ⟨"json", ["json"], 20, 1⟩].getLast? =
        some p ∧
      findParser Option.none []
        (_list_parsers_by_type [⟨"json", ["json"], 10, 0⟩, ⟨"json", ["json"], 20, 1⟩])
        (Forced.typ "json") = Except.ok (instantiate p) ∧
      ∀ q ∈ [(⟨"json", ["json"], 10, 0⟩ : ParserCls), ⟨"json", ["json"], 20, 1⟩],
        q.priority ≤ p.priority :=
  C1_forced_type_selects_last
    [⟨"json", ["json"], 10, 0⟩, ⟨"json", ["json"], 20, 1⟩] "json"
    [⟨"json", ["json"], 10, 0⟩, ⟨"json", ["json"], 20, 1⟩] (by decide) Option.none []

/-- C2: resolving with `forced_type` absent derives the path's extension and
looks it up in the extension index: when the extension has a group, an
instance of the group's last (highest-priority) entry is returned; when it
matches no registered parser, `UnknownFileTypeError` carrying the offending
path is raised. -/
theorem C2_extension_resolution (parsers : List ParserCls) (s : String)
    (cps_by_type : List (String × List ParserCls)) (hs : s ≠ "") :
    (∀ ps : List ParserCls,
      (get_file_extension s, ps) ∈ _list_parsers_by_extension parsers →
      ∃ p : ParserCls, ps.getLast? = some p ∧
        findParser (some s) (_list_parsers_by_extension parsers) cps_by_type
          Forced.none = Except.ok (instantiate p) ∧
        ∀ q ∈ ps, q.priority ≤ p.priority) ∧
    ((∀ pr ∈ _list_parsers_by_extension parsers, pr.1 ≠ get_file_extension s) →
      findParser (some s) (_list_parsers_by_extension parsers) cps_by_type
        Forced.none = Except.error (Err.unknownFileType s)) := by
  constructor
  · intro ps hmem
    obtain ⟨g, hg, hps⟩ := mem_list_parsers_by_extension hmem
    have hgne : g ≠ [] := groupby_key_group_ne_nil hg
    have hpsne : ps ≠ [] := by
      rw [hps]
      simp only [_list_xppairs]
      intro hnil
      exact hgne (List.map_eq_nil_iff.mp ((sortedByKey_eq_nil_iff _ _).mp hnil))
    refine ⟨ps.getLast hpsne, List.getLast?_eq_getLast ps hpsne, ?_, ?_⟩
    · rw [findParser_none_path _ _ hs]
      have hfind : (_list_parsers_by_extension parsers).find?
          (fun pr => decide (pr.1 = get_file_extension s)) =
          some (get_file_extension s, ps) :=
        find?_eq_of_mem_of_nodup (keys_by_ext_nodup parsers) hmem
      simp only [find_by_filepath, find_by_fileext, hfind]
      rw [List.getLast?_eq_getLast ps hpsne]
    · intro q hq
      have hsorted : List.Sorted (fun a b : ParserCls => a.priority ≤ b.priority) ps := by
        rw [hps]
        simp only [_list_xppairs]
        exact sorted_sortedByKey _ _
      exact key_le_getLast (fun p => p.priority) ps hpsne hsorted q hq
  · intro hnone
    rw [findParser_none_path _ _ hs]
    have hfind : (_list_parsers_by_extension parsers).find?
        (fun pr => decide (pr.1 = get_file_extension s)) = Option.none := by
      rw [List.find?_eq_none]
      intro x hx
      simpa using hnone x hx
    simp only [find_by_filepath, find_by_fileext, hfind]

theorem C2_witness :
    (∃ p : ParserCls,
      [(⟨"json", ["json"], 10, 0⟩ : ParserCls)].getLast? = some p ∧
      findParser (some "a.json")
        (_list_parsers_by_extension [⟨"json", ["json"], 10, 0⟩]) [] Forced.none =
        Except.ok (instantiate p) ∧
      ∀ q ∈ [(⟨"json", ["json"], 10, 0⟩ : ParserCls)], q.priority ≤ p.priority) ∧
    findParser (some "a.unknownext")
      (_list_parsers_by_extension [⟨"json", ["json"], 10, 0⟩]) [] Forced.none =
      Except.error (Err.unknownFileType "a.unknownext") :=
  ⟨(C2_extension_resolution [⟨"json", ["json"], 10, 0⟩] "a.json" [] (by decide)).1
      [⟨"json", ["json"], 10, 0⟩] (by decide),
   (C2_extension_resolution [⟨"json", ["json"], 10, 0⟩] "a.unknownext" [] (by decide)).2
      (by decide)⟩

/-- C7: within every group of the by-type index and of the by-extension
index, entries are sorted ascending by priority, and the entries having any
fixed priority appear exactly as in the original input (restricted to the
group's key), i.e. the sort is stable and ties keep registration order. -/
theorem C7_groups_sorted_and_stable (parsers : List ParserCls) :
    (∀ (t : String) (ps : List ParserCls), (t, ps) ∈ _list_parsers_by_type parsers →
      List.Sorted (fun a b : ParserCls => a.priority ≤ b.priority) ps ∧
      ∀ v : Nat, ps.filter (fun p => decide (p.priority = v)) =
        (parsers.filter (fun p => decide (p.type = t))).filter
          (fun p => decide (p.priority = v))) ∧
    (∀ (x : String) (ps : List ParserCls), (x, ps) ∈ _list_parsers_by_extension parsers →
      List.Sorted (fun a b : ParserCls => a.priority ≤ b.priority) ps ∧
      ∀ v : Nat, ps.filter (fun p => decide (p.priority = v)) =
        (((cps_by_ext_pairs parsers).filter (fun pr => decide (pr.1 = x))).map snd).filter
          (fun p => decide (p.priority = v))) := by
  constructor
  · intro t ps hmem
    obtain ⟨g, hg, hps⟩ := mem_list_parsers_by_type hmem
    have hgf : g = parsers.filter (fun p => decide (p.type = t)) :=
      groupby_key_group_eq_filter parsers (fun p => p.type) hg
    constructor
    · rw [hps]
      exact sorted_sortedByKey _ _
    · intro v
      rw [hps]
      rw [show (sortedByKey (fun p => p.priority) g).filter
            (fun p => decide (p.priority = v)) =
          g.filter (fun p => decide (p.priority = v)) from
        filter_sortedByKey (fun p => p.priority) g v]
      rw [hgf]
  · intro x ps hmem
    obtain ⟨g, hg, hps⟩ := mem_list_parsers_by_extension hmem
    have hgf : g = (cps_by_ext_pairs parsers).filter (fun pr => decide (pr.1 = x)) :=
      groupby_key_group_eq_filter (cps_by_ext_pairs parsers) fst hg
    constructor
    · rw [hps]
      simp only [_list_xppairs]
      exact sorted_sortedByKey _ _
    · intro v
      rw [hps]
      simp only [_list_xppairs]
      rw [show (sortedByKey (fun p => p.priority) (g.map snd)).filter
            (fun p => decide (p.priority = v)) =
          (g.map snd).filter (fun p => decide (p.priority = v)) from
        filter_sortedByKey (fun p => p.priority) (g.map snd) v]
      rw [hgf]

theorem C7_witness :
    (List.Sorted (fun a b : ParserCls => a.priority ≤ b.priority)
      [(⟨"json", ["json"], 10, 1⟩ : ParserCls), ⟨"json", ["json"], 20, 0⟩] ∧
    [(⟨"json", ["json"], 10, 1⟩ : ParserCls), ⟨"json", ["json"], 20, 0⟩].filter
        (fun p => decide (p.priority = 10)) =
      (([(⟨"json", ["json"], 20, 0⟩ : ParserCls), ⟨"json", ["json"], 10, 1⟩].filter
          (fun p => decide (p.type = "json"))).filter
        (fun p => decide (p.priority = 10)))) := by
  have h := (C7_groups_sorted_and_stable
    [⟨"json", ["json"], 20, 0⟩, ⟨"json", ["json"], 10, 1⟩]).1 "json"
    [⟨"json", ["json"], 10, 1⟩, ⟨"json", ["json"], 20, 0⟩] (by decide)
  exact ⟨h.1, h.2 10⟩
